import Mathlib

/-!
Verification of the proximity classifier and supporting logic of
`src/vrt6.py` (class `HandSafetySystem`).

Embedding conventions:
* Hull vertices are integer pairs `ℤ × ℤ` (the Python code reads `px, py = point[0]`
  from an integer point array).
* The Python loop stores `min_dist = math.sqrt(dsq)` and compares square roots of
  nonnegative integers; real square root is strictly monotone on nonnegatives and the
  initial value `99999` equals `Real.sqrt (99999 ^ 2)`, so the loop is embedded with
  squared distances (`distSq`), compared exactly as the code compares the roots.
  The distance the Python function returns is `Real.sqrt` of the `distSq` field; the
  theorems below state distance facts through `Real.sqrt`.
* `cv2` calls (segmentation, `contourArea`, `convexHull`, camera, drawing) are external
  library collaborators; where a claim is about code built on their outputs, those
  outputs are parameters of the embedded definition.
-/

/-- A hull vertex `(px, py)`. -/
abbrev Pt := ℤ × ℤ

/-- The danger-zone rectangle, unpacked in the code as `rx, ry, rw, rh = rect`. -/
structure Rect where
  rx : ℤ
  ry : ℤ
  rw : ℤ
  rh : ℤ
deriving DecidableEq

/-- `self.STATE_SAFE = 0` (vrt6.py line 15). -/
def STATE_SAFE : ℕ := 0

/-- `self.STATE_WARNING = 1` (vrt6.py line 16). -/
def STATE_WARNING : ℕ := 1

/-- `self.STATE_DANGER = 2` (vrt6.py line 17). -/
def STATE_DANGER : ℕ := 2

/-- `cl_x = max(rx, min(px, rx + rw))` (vrt6.py line 81). -/
def clampX (r : Rect) (px : ℤ) : ℤ := max r.rx (min px (r.rx + r.rw))

/-- `cl_y = max(ry, min(py, ry + rh))` (vrt6.py line 82). -/
def clampY (r : Rect) (py : ℤ) : ℤ := max r.ry (min py (r.ry + r.rh))

/-- The clamped point `(cl_x, cl_y)` on the box closest to hull vertex `p`. -/
def closestBoxPoint (r : Rect) (p : Pt) : Pt := (clampX r p.1, clampY r p.2)

/-- Squared distance `(px - cl_x)**2 + (py - cl_y)**2`; the code computes
`dist = math.sqrt` of this value (vrt6.py line 85). -/
def distSqTo (r : Rect) (p : Pt) : ℤ :=
  (p.1 - clampX r p.1) ^ 2 + (p.2 - clampY r p.2) ^ 2

/-- One iteration of the hull loop (vrt6.py lines 77-91): the accumulator is
`(min_dist_sq, closest_hand_point, closest_box_point)`; the entry is replaced
exactly when the new distance is strictly smaller (`if dist < min_dist`). -/
def scanStep (r : Rect) (acc : ℤ × Pt × Pt) (p : Pt) : ℤ × Pt × Pt :=
  if distSqTo r p < acc.1 then (distSqTo r p, p, closestBoxPoint r p) else acc

/-- The full hull loop with its initial accumulator
`min_dist = 99999, closest_hand_point = (0, 0), closest_box_point = (0, 0)`
(vrt6.py lines 72-74); `99999 ^ 2` is the square of the initial `min_dist`. -/
def scanHull (r : Rect) (hull : List Pt) : ℤ × Pt × Pt :=
  hull.foldl (scanStep r) (99999 ^ 2, (0, 0), (0, 0))

/-- The threshold block (vrt6.py lines 94-99), on the squared minimum distance:
`min_dist <= 10` is `distSq ≤ 10 ^ 2` and `min_dist < 150` is `distSq < 150 ^ 2`. -/
def classifyDistSq (m : ℤ) : ℕ :=
  if m ≤ 10 ^ 2 then STATE_DANGER
  else if m < 150 ^ 2 then STATE_WARNING
  else STATE_SAFE

/-- The 4-tuple `(state, dist, hand_point, box_point)` returned by
`calculate_logic`; `distSq` is the square of the returned `dist`. -/
structure LogicResult where
  state : ℕ
  distSq : ℤ
  hand_point : Pt
  box_point : Pt
deriving DecidableEq

/-- `HandSafetySystem.calculate_logic` (vrt6.py lines 62-99). `hull is None`
returns the sentinel `(STATE_SAFE, 0, (0, 0), (0, 0))`; otherwise the hull is
scanned and the minimum distance found is bucketed by the threshold block. -/
def calculate_logic (hull : Option (List Pt)) (r : Rect) : LogicResult :=
  match hull with
  | none => ⟨STATE_SAFE, 0, (0, 0), (0, 0)⟩
  | some pts =>
      let s := scanHull r pts
      ⟨classifyDistSq s.1, s.1, s.2.1, s.2.2⟩

/-- Python's `max(contours, key=cv2.contourArea)`: left-to-right scan keeping
the first element attaining the maximal key (replacement only on a strictly
greater key), applied to head `c` and tail `cs` of the contour list. -/
def maxByArea {C : Type} (area : C → ℚ) (c : C) (cs : List C) : C :=
  cs.foldl (fun best x => if area best < area x then x else best) c

/-- The contour-selection logic of `HandSafetySystem.process_frame`
(vrt6.py lines 47-60). The `cv2` segmentation pipeline that produces the
contour list, the `cv2.contourArea` function and `cv2.convexHull` are external
library collaborators, taken here as parameters `area` and `convexHull`.
`hull_points` stays `None` when there are no contours or when the strict test
`cv2.contourArea(max_contour) > 3000` fails. -/
def process_frame {C H : Type} (area : C → ℚ) (convexHull : C → H) :
    List C → Option H
  | [] => none
  | c :: cs =>
      if 3000 < area (maxByArea area c cs) then some (convexHull (maxByArea area c cs))
      else none

/-- The danger zone computed from frame dimensions in `run`
(vrt6.py line 115): `(int(w * 0.65), int(h * 0.25), 200, 200)`; the float
products truncate to the integer parts, modelled by integer division, which
agrees for the nonnegative dimensions a frame has. -/
def dangerZoneOf (w h : ℤ) : Rect := ⟨w * 65 / 100, h * 25 / 100, 200, 200⟩

/-- One main-loop iteration's effect on `self.danger_zone_rect`
(vrt6.py lines 114-115): assigned from the frame's dimensions `(h, w)` only
when it is still `None`, otherwise left untouched. -/
def zoneStep (z : Option Rect) (dims : ℤ × ℤ) : Option Rect :=
  match z with
  | none => some (dangerZoneOf dims.2 dims.1)
  | some r => some r

/-- The danger-zone state after the main loop has consumed a list of frames
(each frame abstracted to its `(h, w)` dimensions), starting from the
`self.danger_zone_rect = None` of `__init__`. -/
def zoneAfter (frames : List (ℤ × ℤ)) : Option Rect :=
  frames.foldl zoneStep none

/-- Translation of a point by a vector `d`. -/
def translatePt (d p : Pt) : Pt := (p.1 + d.1, p.2 + d.2)

/-- Translation of a rectangle's origin by a vector `d` (size unchanged). -/
def translateRect (d : Pt) (r : Rect) : Rect := ⟨r.rx + d.1, r.ry + d.2, r.rw, r.rh⟩

/-- C3: `calculate_logic` with `hull = None` returns state SAFE, distance 0
(the square root of the stored squared distance 0), hand point `(0, 0)` and
zone point `(0, 0)`, for every rectangle — a defined sentinel, not an error. -/
theorem calculate_logic_none (r : Rect) :
    calculate_logic none r = ⟨STATE_SAFE, 0, (0, 0), (0, 0)⟩ ∧
    Real.sqrt (((calculate_logic none r).distSq : ℝ)) = 0 := by
  refine ⟨rfl, ?_⟩
  show Real.sqrt ((0 : ℤ) : ℝ) = 0
  simp

/-- C6: the danger-zone rectangle is assigned exactly once, from the first
frame's dimensions; folding any further frames over an already-assigned zone
leaves it unchanged, so after the first frame the zone is the one computed
from that frame, whatever the later frames' dimensions are. -/
theorem danger_zone_once (f : ℤ × ℤ) (frames : List (ℤ × ℤ)) (r : Rect) :
    zoneAfter (f :: frames) = some (dangerZoneOf f.2 f.1) ∧
    frames.foldl zoneStep (some r) = some r := by
  have hold : ∀ (l : List (ℤ × ℤ)) (r' : Rect), l.foldl zoneStep (some r') = some r' := by
    intro l
    induction l with
    | nil => intro r'; rfl
    | cons x xs ih => intro r'; exact ih r'
  exact ⟨hold frames (dangerZoneOf f.2 f.1), hold frames r⟩

/-- The squared vertex-to-box distance is a sum of two squares, hence nonnegative. -/
theorem distSqTo_nonneg (r : Rect) (p : Pt) : 0 ≤ distSqTo r p :=
  add_nonneg (sq_nonneg _) (sq_nonneg _)

/-- One loop step never increases the running minimum. -/
theorem scanStep_fst_le (r : Rect) (a : ℤ × Pt × Pt) (p : Pt) :
    (scanStep r a p).1 ≤ a.1 := by
  dsimp only [scanStep]
  split
  · next h => exact le_of_lt h
  · exact le_rfl

/-- After a loop step the running minimum is at most the step's distance. -/
theorem scanStep_fst_le_dist (r : Rect) (a : ℤ × Pt × Pt) (p : Pt) :
    (scanStep r a p).1 ≤ distSqTo r p := by
  dsimp only [scanStep]
  split
  · exact le_rfl
  · next h => exact le_of_not_lt h

/-- The loop never increases the running minimum. -/
theorem scan_fst_le (r : Rect) (l : List Pt) :
    ∀ a : ℤ × Pt × Pt, (l.foldl (scanStep r) a).1 ≤ a.1 := by
  induction l with
  | nil => intro a; exact le_rfl
  | cons x xs ih =>
      intro a
      simp only [List.foldl_cons]
      exact le_trans (ih (scanStep r a x)) (scanStep_fst_le r a x)

/-- The final running minimum is at most every scanned vertex's distance. -/
theorem scan_fst_le_of_mem (r : Rect) (l : List Pt) :
    ∀ a : ℤ × Pt × Pt, ∀ p ∈ l, (l.foldl (scanStep r) a).1 ≤ distSqTo r p := by
  induction l with
  | nil => intro a p hp; cases hp
  | cons x xs ih =>
      intro a p hp
      simp only [List.foldl_cons]
      rcases List.mem_cons.mp hp with h | h
      · subst h
        exact le_trans (scan_fst_le r xs (scanStep r a p)) (scanStep_fst_le_dist r a p)
      · exact ih (scanStep r a x) p h

/-- A nonnegative running minimum stays nonnegative through the loop. -/
theorem scan_fst_nonneg (r : Rect) (l : List Pt) :
    ∀ a : ℤ × Pt × Pt, 0 ≤ a.1 → 0 ≤ (l.foldl (scanStep r) a).1 := by
  induction l with
  | nil => intro a h; exact h
  | cons x xs ih =>
      intro a h
      simp only [List.foldl_cons]
      apply ih
      dsimp only [scanStep]
      split
      · exact distSqTo_nonneg r x
      · exact h

/-- When every scanned distance is at least the running minimum, the loop
leaves the accumulator untouched (updates require a strict decrease). -/
theorem scan_no_update (r : Rect) (l : List Pt) :
    ∀ a : ℤ × Pt × Pt, (∀ p ∈ l, a.1 ≤ distSqTo r p) → l.foldl (scanStep r) a = a := by
  induction l with
  | nil => intro a _; rfl
  | cons x xs ih =>
      intro a h
      simp only [List.foldl_cons]
      have hx : ¬ distSqTo r x < a.1 := not_lt.mpr (h x (List.mem_cons_self x xs))
      have hstep : scanStep r a x = a := by
        dsimp only [scanStep]; rw [if_neg hx]
      rw [hstep]
      exact ih a (fun p hp => h p (List.mem_cons_of_mem x hp))

/-- When some scanned distance beats the initial minimum, the loop ends on the
first vertex attaining the overall minimum: the list splits as `l1 ++ p :: l2`
with every vertex of `l1` strictly farther, and the accumulator holds that
vertex's distance, the vertex, and its clamped box point. -/
theorem scan_update (r : Rect) (l : List Pt) :
    ∀ a : ℤ × Pt × Pt, (∃ p ∈ l, distSqTo r p < a.1) →
    ∃ l1 p l2, l = l1 ++ p :: l2 ∧
      l.foldl (scanStep r) a = (distSqTo r p, p, closestBoxPoint r p) ∧
      distSqTo r p < a.1 ∧
      (∀ q ∈ l, distSqTo r p ≤ distSqTo r q) ∧
      (∀ q ∈ l1, distSqTo r p < distSqTo r q) := by
  induction l with
  | nil => intro a h; rcases h with ⟨p, hp, _⟩; cases hp
  | cons x xs ih =>
      intro a h
      by_cases hx : distSqTo r x < a.1
      · have hstep : scanStep r a x = (distSqTo r x, x, closestBoxPoint r x) := by
          dsimp only [scanStep]; rw [if_pos hx]
        by_cases hxs : ∃ q ∈ xs, distSqTo r q < distSqTo r x
        · rcases ih (distSqTo r x, x, closestBoxPoint r x) hxs with
            ⟨l1, p, l2, hdecomp, hfold, hlt, hmin, hfirst⟩
          refine ⟨x :: l1, p, l2, ?_, ?_, ?_, ?_, ?_⟩
          · rw [hdecomp]; rfl
          · simp only [List.foldl_cons, hstep]; exact hfold
          · exact lt_trans hlt hx
          · intro q hq
            rcases List.mem_cons.mp hq with hq | hq
            · subst hq; exact le_of_lt hlt
            · exact hmin q hq
          · intro q hq
            rcases List.mem_cons.mp hq with hq | hq
            · subst hq; exact hlt
            · exact hfirst q hq
        · push_neg at hxs
          refine ⟨[], x, xs, rfl, ?_, hx, ?_, ?_⟩
          · simp only [List.foldl_cons, hstep]
            exact scan_no_update r xs _ (fun p hp => hxs p hp)
          · intro q hq
            rcases List.mem_cons.mp hq with hq | hq
            · subst hq; exact le_rfl
            · exact hxs q hq
          · intro q hq; cases hq
      · have hstep : scanStep r a x = a := by
          dsimp only [scanStep]; rw [if_neg hx]
        have hax : a.1 ≤ distSqTo r x := le_of_not_lt hx
        have h' : ∃ p ∈ xs, distSqTo r p < a.1 := by
          rcases h with ⟨p, hp, hplt⟩
          rcases List.mem_cons.mp hp with hpx | hpxs
          · subst hpx; exact absurd hplt hx
          · exact ⟨p, hpxs, hplt⟩
        rcases ih a h' with ⟨l1, p, l2, hdecomp, hfold, hlt, hmin, hfirst⟩
        refine ⟨x :: l1, p, l2, ?_, ?_, hlt, ?_, ?_⟩
        · rw [hdecomp]; rfl
        · simp only [List.foldl_cons, hstep]; exact hfold
        · intro q hq
          rcases List.mem_cons.mp hq with hq | hq
          · subst hq; exact le_of_lt (lt_of_lt_of_le hlt hax)
          · exact hmin q hq
        · intro q hq
          rcases List.mem_cons.mp hq with hq | hq
          · subst hq; exact lt_of_lt_of_le hlt hax
          · exact hfirst q hq

/-- Bridge: comparing the real square root of a nonnegative integer with a
nonnegative integer bound is comparing the integer with the bound's square. -/
theorem sqrtZ_le_iff {x c : ℤ} (hc : 0 ≤ c) :
    Real.sqrt (x : ℝ) ≤ (c : ℝ) ↔ x ≤ c ^ 2 := by
  rw [Real.sqrt_le_left (by exact_mod_cast hc)]
  norm_cast

/-- Bridge for strict upper bounds on the square root. -/
theorem sqrtZ_lt_iff {x c : ℤ} (hx : 0 ≤ x) (hc : 0 ≤ c) :
    Real.sqrt (x : ℝ) < (c : ℝ) ↔ x < c ^ 2 := by
  rw [Real.sqrt_lt (by exact_mod_cast hx) (by exact_mod_cast hc)]
  norm_cast

/-- Bridge for lower bounds on the square root. -/
theorem le_sqrtZ_iff {x c : ℤ} (hx : 0 ≤ x) (hc : 0 ≤ c) :
    (c : ℝ) ≤ Real.sqrt (x : ℝ) ↔ c ^ 2 ≤ x := by
  rw [Real.le_sqrt (by exact_mod_cast hc) (by exact_mod_cast hx)]
  norm_cast

/-- Bridge for strict lower bounds on the square root. -/
theorem lt_sqrtZ_iff {x c : ℤ} (hc : 0 ≤ c) :
    (c : ℝ) < Real.sqrt (x : ℝ) ↔ c ^ 2 < x := by
  rw [Real.lt_sqrt (by exact_mod_cast hc)]
  norm_cast

/-- Unfolding equation for `calculate_logic` on a present hull. -/
theorem calculate_logic_some (l : List Pt) (r : Rect) :
    calculate_logic (some l) r =
      ⟨classifyDistSq (scanHull r l).1, (scanHull r l).1,
        (scanHull r l).2.1, (scanHull r l).2.2⟩ := rfl

/-- The stored squared minimum distance is nonnegative. -/
theorem scanHull_fst_nonneg (r : Rect) (l : List Pt) : 0 ≤ (scanHull r l).1 :=
  scan_fst_nonneg r l _ (by norm_num)

/-- The stored squared minimum distance never exceeds the initial `99999 ^ 2`. -/
theorem scanHull_fst_le_cap (r : Rect) (l : List Pt) : (scanHull r l).1 ≤ 99999 ^ 2 :=
  scan_fst_le r l _

/-- Specialized bridge at the DANGER threshold 10. -/
theorem sqrtZ_le_ten {x : ℤ} : Real.sqrt (x : ℝ) ≤ 10 ↔ x ≤ 10 ^ 2 := by
  rw [show (10 : ℝ) = ((10 : ℤ) : ℝ) by norm_num, sqrtZ_le_iff (by norm_num)]

/-- Strict complement of the DANGER threshold bridge. -/
theorem ten_lt_sqrtZ {x : ℤ} : 10 < Real.sqrt (x : ℝ) ↔ 10 ^ 2 < x := by
  rw [← not_le, ← not_le, sqrtZ_le_ten]

/-- Specialized bridge at the SAFE threshold 150 (strict upper bound). -/
theorem sqrtZ_lt_150 {x : ℤ} (hx : 0 ≤ x) : Real.sqrt (x : ℝ) < 150 ↔ x < 150 ^ 2 := by
  rw [show (150 : ℝ) = ((150 : ℤ) : ℝ) by norm_num, sqrtZ_lt_iff hx (by norm_num)]

/-- Specialized bridge at the SAFE threshold 150 (lower bound). -/
theorem le150_sqrtZ {x : ℤ} (hx : 0 ≤ x) : 150 ≤ Real.sqrt (x : ℝ) ↔ 150 ^ 2 ≤ x := by
  rw [show (150 : ℝ) = ((150 : ℤ) : ℝ) by norm_num, le_sqrtZ_iff hx (by norm_num)]

/-- Specialized bridge at the initial `min_dist` cap 99999 (upper bound). -/
theorem sqrtZ_le_cap {x : ℤ} : Real.sqrt (x : ℝ) ≤ 99999 ↔ x ≤ 99999 ^ 2 := by
  rw [show (99999 : ℝ) = ((99999 : ℤ) : ℝ) by norm_num, sqrtZ_le_iff (by norm_num)]

/-- Specialized bridge at the cap 99999 (lower bound). -/
theorem cap_le_sqrtZ {x : ℤ} (hx : 0 ≤ x) : (99999 : ℝ) ≤ Real.sqrt (x : ℝ) ↔ 99999 ^ 2 ≤ x := by
  rw [show (99999 : ℝ) = ((99999 : ℤ) : ℝ) by norm_num, le_sqrtZ_iff hx (by norm_num)]

/-- Specialized bridge at the cap 99999 (strict upper bound). -/
theorem sqrtZ_lt_cap {x : ℤ} (hx : 0 ≤ x) : Real.sqrt (x : ℝ) < 99999 ↔ x < 99999 ^ 2 := by
  rw [show (99999 : ℝ) = ((99999 : ℤ) : ℝ) by norm_num, sqrtZ_lt_iff hx (by norm_num)]

/-- C1: for every non-empty hull the returned state buckets the minimum
distance found with inclusive lower boundary and exclusive upper boundary:
DANGER exactly when the distance is at most 10 (so exactly 10 is DANGER),
WARNING exactly when it is strictly between 10 and 150, and SAFE exactly when
it is at least 150 (so exactly 150 is SAFE). -/
theorem calculate_logic_thresholds (l : List Pt) (r : Rect) (_hne : l ≠ []) :
    ((calculate_logic (some l) r).state = STATE_DANGER ↔
      Real.sqrt (((calculate_logic (some l) r).distSq : ℝ)) ≤ 10) ∧
    ((calculate_logic (some l) r).state = STATE_WARNING ↔
      (10 < Real.sqrt (((calculate_logic (some l) r).distSq : ℝ)) ∧
        Real.sqrt (((calculate_logic (some l) r).distSq : ℝ)) < 150)) ∧
    ((calculate_logic (some l) r).state = STATE_SAFE ↔
      150 ≤ Real.sqrt (((calculate_logic (some l) r).distSq : ℝ))) := by
  have hm : 0 ≤ (scanHull r l).1 := scanHull_fst_nonneg r l
  have hstate : (calculate_logic (some l) r).state = classifyDistSq (scanHull r l).1 := rfl
  have hdist : (calculate_logic (some l) r).distSq = (scanHull r l).1 := rfl
  rw [hstate, hdist]
  set m := (scanHull r l).1 with hmdef
  unfold classifyDistSq
  split_ifs with h1 h2
  · have hd : Real.sqrt ((m : ℤ) : ℝ) ≤ 10 := sqrtZ_le_ten.mpr h1
    refine ⟨⟨fun _ => hd, fun _ => rfl⟩, ⟨?_, ?_⟩, ⟨?_, ?_⟩⟩
    · intro hc; exact absurd hc (by decide)
    · rintro ⟨h10, _⟩
      exact absurd (ten_lt_sqrtZ.mp h10) (not_lt.mpr h1)
    · intro hc; exact absurd hc (by decide)
    · intro h150
      have := le_trans ((le150_sqrtZ hm).mp h150) h1
      norm_num at this
  · have h10 : 10 < Real.sqrt ((m : ℤ) : ℝ) := ten_lt_sqrtZ.mpr (not_le.mp h1)
    have h150 : Real.sqrt ((m : ℤ) : ℝ) < 150 := (sqrtZ_lt_150 hm).mpr h2
    refine ⟨⟨fun hc => absurd hc (by decide), fun hle => absurd (sqrtZ_le_ten.mp hle) h1⟩,
      ⟨fun _ => ⟨h10, h150⟩, fun _ => rfl⟩,
      ⟨fun hc => absurd hc (by decide), fun hge => absurd ((le150_sqrtZ hm).mp hge) (not_le.mpr h2)⟩⟩
  · have hge : 150 ≤ Real.sqrt ((m : ℤ) : ℝ) := (le150_sqrtZ hm).mpr (not_lt.mp h2)
    refine ⟨⟨fun hc => absurd hc (by decide), fun hle => absurd (sqrtZ_le_ten.mp hle) h1⟩,
      ⟨fun hc => absurd hc (by decide), fun hw => absurd ((sqrtZ_lt_150 hm).mp hw.2) h2⟩,
      ⟨fun _ => hge, fun _ => rfl⟩⟩

/-- Witness for C1 at hull `[(110, 50)]` and zone `(0, 0, 100, 100)`: the
single vertex clamps to `(100, 50)`, at distance exactly 10. -/
theorem calculate_logic_thresholds_witness :
    [((110 : ℤ), (50 : ℤ))] ≠ [] ∧
    (((calculate_logic (some [((110 : ℤ), (50 : ℤ))]) ⟨0, 0, 100, 100⟩).state = STATE_DANGER ↔
      Real.sqrt (((calculate_logic (some [((110 : ℤ), (50 : ℤ))]) ⟨0, 0, 100, 100⟩).distSq : ℝ)) ≤ 10) ∧
    ((calculate_logic (some [((110 : ℤ), (50 : ℤ))]) ⟨0, 0, 100, 100⟩).state = STATE_WARNING ↔
      (10 < Real.sqrt (((calculate_logic (some [((110 : ℤ), (50 : ℤ))]) ⟨0, 0, 100, 100⟩).distSq : ℝ)) ∧
        Real.sqrt (((calculate_logic (some [((110 : ℤ), (50 : ℤ))]) ⟨0, 0, 100, 100⟩).distSq : ℝ)) < 150)) ∧
    ((calculate_logic (some [((110 : ℤ), (50 : ℤ))]) ⟨0, 0, 100, 100⟩).state = STATE_SAFE ↔
      150 ≤ Real.sqrt (((calculate_logic (some [((110 : ℤ), (50 : ℤ))]) ⟨0, 0, 100, 100⟩).distSq : ℝ)))) :=
  ⟨by decide, calculate_logic_thresholds [((110 : ℤ), (50 : ℤ))] ⟨0, 0, 100, 100⟩ (by decide)⟩

/-- C2 (amended): whenever some hull vertex is strictly closer to the
rectangle than the initial `min_dist` of 99999, the returned distance equals
the minimum over all hull vertices of the Euclidean distance to the clamped
point, and the returned hand point and zone point are a pair attaining it. -/
theorem calculate_logic_min (l : List Pt) (r : Rect)
    (h : ∃ p ∈ l, distSqTo r p < 99999 ^ 2) :
    ∃ p ∈ l,
      (calculate_logic (some l) r).hand_point = p ∧
      (calculate_logic (some l) r).box_point = closestBoxPoint r p ∧
      Real.sqrt (((calculate_logic (some l) r).distSq : ℝ)) =
        Real.sqrt ((distSqTo r p : ℝ)) ∧
      ∀ q ∈ l, Real.sqrt ((distSqTo r p : ℝ)) ≤ Real.sqrt ((distSqTo r q : ℝ)) := by
  rcases scan_update r l (99999 ^ 2, (0, 0), (0, 0)) h with
    ⟨l1, p, l2, hdec, hfold, _, hmin, _⟩
  have hs : scanHull r l = (distSqTo r p, p, closestBoxPoint r p) := hfold
  have hmem : p ∈ l := by
    rw [hdec]; exact List.mem_append_right _ (List.mem_cons_self _ _)
  refine ⟨p, hmem, ?_, ?_, ?_, ?_⟩
  · show (scanHull r l).2.1 = p
    simp only [hs]
  · show (scanHull r l).2.2 = closestBoxPoint r p
    simp only [hs]
  · have hd : (calculate_logic (some l) r).distSq = distSqTo r p := by
      show (scanHull r l).1 = distSqTo r p
      simp only [hs]
    rw [hd]
  · intro q hq
    exact Real.sqrt_le_sqrt (by exact_mod_cast hmin q hq)

/-- Witness for C2 at hull `[(50, 100)]` and zone `(100, 100, 200, 200)`:
the single vertex clamps to `(100, 100)` at distance 50. -/
theorem calculate_logic_min_witness :
    (∃ p ∈ [((50 : ℤ), (100 : ℤ))], distSqTo ⟨100, 100, 200, 200⟩ p < 99999 ^ 2) ∧
    ∃ p ∈ [((50 : ℤ), (100 : ℤ))],
      (calculate_logic (some [((50 : ℤ), (100 : ℤ))]) ⟨100, 100, 200, 200⟩).hand_point = p ∧
      (calculate_logic (some [((50 : ℤ), (100 : ℤ))]) ⟨100, 100, 200, 200⟩).box_point =
        closestBoxPoint ⟨100, 100, 200, 200⟩ p ∧
      Real.sqrt (((calculate_logic (some [((50 : ℤ), (100 : ℤ))]) ⟨100, 100, 200, 200⟩).distSq : ℝ)) =
        Real.sqrt ((distSqTo ⟨100, 100, 200, 200⟩ p : ℝ)) ∧
      ∀ q ∈ [((50 : ℤ), (100 : ℤ))],
        Real.sqrt ((distSqTo ⟨100, 100, 200, 200⟩ p : ℝ)) ≤
          Real.sqrt ((distSqTo ⟨100, 100, 200, 200⟩ q : ℝ)) :=
  ⟨by decide, calculate_logic_min [((50 : ℤ), (100 : ℤ))] ⟨100, 100, 200, 200⟩ (by decide)⟩

/-- C2 fails as stated: with hull `[(200000, 0)]` and zone `(0, 0, 10, 10)`
the only vertex is at distance 199990, beyond the initial `min_dist` of 99999,
so the loop never updates: the returned hand point `(0, 0)` is not a hull
vertex and the returned distance is 99999, not the vertex minimum 199990. -/
theorem calculate_logic_min_cex :
    (calculate_logic (some [((200000 : ℤ), 0)]) ⟨0, 0, 10, 10⟩).hand_point ∉
      [((200000 : ℤ), 0)] ∧
    Real.sqrt (((calculate_logic (some [((200000 : ℤ), 0)]) ⟨0, 0, 10, 10⟩).distSq : ℝ)) ≠
      Real.sqrt ((distSqTo ⟨0, 0, 10, 10⟩ ((200000 : ℤ), 0) : ℝ)) := by
  constructor
  · decide
  · have h1 : (calculate_logic (some [((200000 : ℤ), 0)]) ⟨0, 0, 10, 10⟩).distSq =
        99999 ^ 2 := by decide
    have h2 : distSqTo ⟨0, 0, 10, 10⟩ ((200000 : ℤ), 0) = 199990 ^ 2 := by decide
    rw [h1, h2]
    intro heq
    have h3 := (Real.sqrt_inj (by positivity) (by positivity)).mp heq
    have h4 : ((99999 : ℤ) ^ 2) = 199990 ^ 2 := by exact_mod_cast h3
    norm_num at h4

/-- C4 (amended): the stored squared distance is always a nonnegative integer,
so the returned distance (its real square root) is a nonnegative real; when no
hull is present the stored value is the sentinel 0, not an infinity. -/
theorem calculate_logic_dist_nonneg (hull : Option (List Pt)) (r : Rect) :
    0 ≤ (calculate_logic hull r).distSq ∧
    0 ≤ Real.sqrt (((calculate_logic hull r).distSq : ℝ)) ∧
    (calculate_logic none r).distSq = 0 := by
  refine ⟨?_, Real.sqrt_nonneg _, rfl⟩
  cases hull with
  | none => exact le_rfl
  | some l => exact scanHull_fst_nonneg r l

/-- C4 fails as stated: with no hull the returned distance is 0 (the square
root of the stored 0), not an infinite sentinel — it is even strictly below
the loop's own 99999 cap, and coincides with a true zero-distance reading. -/
theorem calculate_logic_dist_cex :
    (calculate_logic none ⟨0, 0, 1, 1⟩).distSq = 0 ∧
    Real.sqrt (((calculate_logic none ⟨0, 0, 1, 1⟩).distSq : ℝ)) = 0 ∧
    Real.sqrt (((calculate_logic none ⟨0, 0, 1, 1⟩).distSq : ℝ)) < 99999 := by
  have h0 : (calculate_logic none ⟨0, 0, 1, 1⟩).distSq = 0 := rfl
  refine ⟨h0, ?_, ?_⟩
  · rw [h0]; simp
  · rw [h0]; simp

/-- C5 (amended): the contour-selection of `process_frame` returns `None`
exactly when the contour list is empty or the maximum-area contour has area
at most 3000 — the code's test is the strict `> 3000`, so an area of exactly
3000 IS rejected — and when that area exceeds 3000 it returns the convex hull
of the maximum-area contour. -/
theorem process_frame_spec {C H : Type} (area : C → ℚ) (convexHull : C → H)
    (c : C) (cs : List C) :
    process_frame area convexHull ([] : List C) = none ∧
    (process_frame area convexHull (c :: cs) = none ↔
      area (maxByArea area c cs) ≤ 3000) ∧
    (3000 < area (maxByArea area c cs) →
      process_frame area convexHull (c :: cs) = some (convexHull (maxByArea area c cs))) := by
  refine ⟨rfl, ?_, ?_⟩
  · by_cases h : 3000 < area (maxByArea area c cs)
    · simp only [process_frame, if_pos h]
      constructor
      · intro hsome; cases hsome
      · intro hle; exact absurd h (not_lt.mpr hle)
    · simp only [process_frame, if_neg h]
      exact ⟨fun _ => le_of_not_lt h, fun _ => trivial⟩
  · intro h
    simp only [process_frame, if_pos h]

/-- Witness for C5 with a single contour of area 4000 (area and hull taken as
identity on rationals): the test `> 3000` passes and the hull is returned. -/
theorem process_frame_spec_witness :
    (3000 : ℚ) < id (maxByArea (id : ℚ → ℚ) 4000 []) ∧
    process_frame (id : ℚ → ℚ) id [(4000 : ℚ)] = some (id (maxByArea (id : ℚ → ℚ) 4000 [])) :=
  ⟨by norm_num [maxByArea], (process_frame_spec (id : ℚ → ℚ) id 4000 []).2.2 (by norm_num [maxByArea])⟩

/-- C5 fails as stated at the boundary: a single contour of area exactly 3000
is rejected (the code requires strictly more than 3000), and `None` is
returned, contradicting the claim that area exactly 3000 is not rejected. -/
theorem process_frame_boundary_cex :
    process_frame (id : ℚ → ℚ) id [(3000 : ℚ)] = none := by decide


/-- C9: for a non-empty hull the returned distance never exceeds the initial
`min_dist` of 99999; and when every hull vertex is at Euclidean distance at
least 99999 from the rectangle the loop never updates, so the result is state
SAFE with distance exactly 99999 and both reported points `(0, 0)`. -/
theorem calculate_logic_cap (l : List Pt) (r : Rect) (_hne : l ≠ []) :
    Real.sqrt (((calculate_logic (some l) r).distSq : ℝ)) ≤ 99999 ∧
    ((∀ p ∈ l, (99999 : ℝ) ≤ Real.sqrt ((distSqTo r p : ℝ))) →
      calculate_logic (some l) r = ⟨STATE_SAFE, 99999 ^ 2, (0, 0), (0, 0)⟩ ∧
      Real.sqrt (((calculate_logic (some l) r).distSq : ℝ)) = 99999) := by
  have hcap : (calculate_logic (some l) r).distSq ≤ 99999 ^ 2 := scanHull_fst_le_cap r l
  constructor
  · exact sqrtZ_le_cap.mpr hcap
  · intro hfar
    have hall : ∀ p ∈ l, ((99999 ^ 2 : ℤ), ((0 : ℤ), (0 : ℤ)), ((0 : ℤ), (0 : ℤ))).1 ≤
        distSqTo r p := fun p hp =>
      (cap_le_sqrtZ (distSqTo_nonneg r p)).mp (hfar p hp)
    have hs : scanHull r l = (99999 ^ 2, (0, 0), (0, 0)) :=
      scan_no_update r l _ hall
    have hd : (calculate_logic (some l) r).distSq = 99999 ^ 2 := by
      show (scanHull r l).1 = 99999 ^ 2
      simp only [hs]
    constructor
    · show (⟨classifyDistSq (scanHull r l).1, (scanHull r l).1,
          (scanHull r l).2.1, (scanHull r l).2.2⟩ : LogicResult) =
        ⟨STATE_SAFE, 99999 ^ 2, (0, 0), (0, 0)⟩
      rw [hs]
      decide
    · rw [hd]
      rw [show ((99999 ^ 2 : ℤ) : ℝ) = (99999 : ℝ) ^ 2 by push_cast; ring]
      exact Real.sqrt_sq (by norm_num)

/-- Witness for C9 at hull `[(199999, 0)]` and zone `(0, 0, 10, 10)`: the one
vertex is at distance `199989 ≥ 99999`, so the capped sentinel is returned. -/
theorem calculate_logic_cap_witness :
    Real.sqrt (((calculate_logic (some [((199999 : ℤ), 0)]) ⟨0, 0, 10, 10⟩).distSq : ℝ)) ≤ 99999 ∧
    calculate_logic (some [((199999 : ℤ), 0)]) ⟨0, 0, 10, 10⟩ =
      ⟨STATE_SAFE, 99999 ^ 2, (0, 0), (0, 0)⟩ := by
  have h := calculate_logic_cap [((199999 : ℤ), 0)] ⟨0, 0, 10, 10⟩ (by decide)
  refine ⟨h.1, ?_⟩
  refine (h.2 ?_).1
  intro p hp
  have hp' : p = ((199999 : ℤ), 0) := by simpa using hp
  subst hp'
  have hdv : distSqTo ⟨0, 0, 10, 10⟩ ((199999 : ℤ), 0) = 199989 ^ 2 := by decide
  rw [hdv]
  exact (cap_le_sqrtZ (by positivity)).mpr (by norm_num)

/-- C10: when the returned distance is strictly below the 99999 cap and the
rectangle has nonnegative width and height, the reported hand point is a hull
vertex, the reported zone point is exactly that vertex's clamp to the
rectangle, and it therefore lies within the rectangle's bounds. -/
theorem calculate_logic_points (l : List Pt) (r : Rect)
    (hw : 0 ≤ r.rw) (hh : 0 ≤ r.rh)
    (hd : Real.sqrt (((calculate_logic (some l) r).distSq : ℝ)) < 99999) :
    (calculate_logic (some l) r).hand_point ∈ l ∧
    (calculate_logic (some l) r).box_point =
      closestBoxPoint r ((calculate_logic (some l) r).hand_point) ∧
    r.rx ≤ (calculate_logic (some l) r).box_point.1 ∧
    (calculate_logic (some l) r).box_point.1 ≤ r.rx + r.rw ∧
    r.ry ≤ (calculate_logic (some l) r).box_point.2 ∧
    (calculate_logic (some l) r).box_point.2 ≤ r.ry + r.rh := by
  have hdz : (calculate_logic (some l) r).distSq < 99999 ^ 2 :=
    (sqrtZ_lt_cap (scanHull_fst_nonneg r l)).mp hd
  have hex : ∃ p ∈ l, distSqTo r p < 99999 ^ 2 := by
    by_contra hno
    push_neg at hno
    have hs0 : scanHull r l = (99999 ^ 2, (0, 0), (0, 0)) :=
      scan_no_update r l _ (fun p hp => hno p hp)
    have h1 : (calculate_logic (some l) r).distSq = 99999 ^ 2 := by
      show (scanHull r l).1 = 99999 ^ 2
      simp only [hs0]
    rw [h1] at hdz
    exact lt_irrefl _ hdz
  rcases scan_update r l (99999 ^ 2, (0, 0), (0, 0)) hex with
    ⟨l1, p, l2, hdec, hfold, _, _, _⟩
  have hs : scanHull r l = (distSqTo r p, p, closestBoxPoint r p) := hfold
  have hhand : (calculate_logic (some l) r).hand_point = p := by
    show (scanHull r l).2.1 = p
    simp only [hs]
  have hbox : (calculate_logic (some l) r).box_point = closestBoxPoint r p := by
    show (scanHull r l).2.2 = closestBoxPoint r p
    simp only [hs]
  have hmem : p ∈ l := by
    rw [hdec]; exact List.mem_append_right _ (List.mem_cons_self _ _)
  have h1 : r.rx ≤ clampX r p.1 := le_max_left _ _
  have h2 : clampX r p.1 ≤ r.rx + r.rw := max_le (by linarith) (min_le_right _ _)
  have h3 : r.ry ≤ clampY r p.2 := le_max_left _ _
  have h4 : clampY r p.2 ≤ r.ry + r.rh := max_le (by linarith) (min_le_right _ _)
  exact ⟨by rw [hhand]; exact hmem, by rw [hbox, hhand],
    by rw [hbox]; exact h1, by rw [hbox]; exact h2,
    by rw [hbox]; exact h3, by rw [hbox]; exact h4⟩

/-- Witness for C10 at hull `[(50, 100)]` and zone `(100, 100, 200, 200)`:
the vertex clamps to `(100, 100)` at distance 50, below the cap. -/
theorem calculate_logic_points_witness :
    (calculate_logic (some [((50 : ℤ), (100 : ℤ))]) ⟨100, 100, 200, 200⟩).hand_point ∈
      [((50 : ℤ), (100 : ℤ))] ∧
    (calculate_logic (some [((50 : ℤ), (100 : ℤ))]) ⟨100, 100, 200, 200⟩).box_point =
      closestBoxPoint ⟨100, 100, 200, 200⟩
        ((calculate_logic (some [((50 : ℤ), (100 : ℤ))]) ⟨100, 100, 200, 200⟩).hand_point) ∧
    (100 : ℤ) ≤ (calculate_logic (some [((50 : ℤ), (100 : ℤ))]) ⟨100, 100, 200, 200⟩).box_point.1 ∧
    (calculate_logic (some [((50 : ℤ), (100 : ℤ))]) ⟨100, 100, 200, 200⟩).box_point.1 ≤ 100 + 200 ∧
    (100 : ℤ) ≤ (calculate_logic (some [((50 : ℤ), (100 : ℤ))]) ⟨100, 100, 200, 200⟩).box_point.2 ∧
    (calculate_logic (some [((50 : ℤ), (100 : ℤ))]) ⟨100, 100, 200, 200⟩).box_point.2 ≤ 100 + 200 :=
  calculate_logic_points [((50 : ℤ), (100 : ℤ))] ⟨100, 100, 200, 200⟩
    (by norm_num) (by norm_num)
    (by
      have h : (calculate_logic (some [((50 : ℤ), (100 : ℤ))]) ⟨100, 100, 200, 200⟩).distSq =
          2500 := by decide
      rw [h]
      exact (sqrtZ_lt_cap (by norm_num)).mpr (by norm_num))

/-- C8 (amended): whenever some vertex is closer than the 99999 cap — in
particular whenever two or more vertices tie for such a minimum — the pair the
code reports is that of the first minimizing vertex in hull iteration order
(every earlier vertex is strictly farther), and the returned distance is the
minimum itself with the state the threshold function of that minimum alone, so
which minimizing vertex is reported affects neither state nor distance. -/
theorem calculate_logic_first_min (l : List Pt) (r : Rect)
    (h : ∃ p ∈ l, distSqTo r p < 99999 ^ 2) :
    ∃ l1 p l2, l = l1 ++ p :: l2 ∧
      (calculate_logic (some l) r).hand_point = p ∧
      (calculate_logic (some l) r).box_point = closestBoxPoint r p ∧
      (calculate_logic (some l) r).distSq = distSqTo r p ∧
      (∀ q ∈ l, distSqTo r p ≤ distSqTo r q) ∧
      (∀ q ∈ l1, distSqTo r p < distSqTo r q) ∧
      (calculate_logic (some l) r).state = classifyDistSq (distSqTo r p) := by
  rcases scan_update r l (99999 ^ 2, (0, 0), (0, 0)) h with
    ⟨l1, p, l2, hdec, hfold, _, hmin, hfirst⟩
  have hs : scanHull r l = (distSqTo r p, p, closestBoxPoint r p) := hfold
  refine ⟨l1, p, l2, hdec, ?_, ?_, ?_, hmin, hfirst, ?_⟩
  · show (scanHull r l).2.1 = p
    simp only [hs]
  · show (scanHull r l).2.2 = closestBoxPoint r p
    simp only [hs]
  · show (scanHull r l).1 = distSqTo r p
    simp only [hs]
  · show classifyDistSq (scanHull r l).1 = classifyDistSq (distSqTo r p)
    simp only [hs]

/-- Witness for C8 at hull `[(110, 50), (110, 50)]` and zone
`(0, 0, 100, 100)`: both vertices tie at distance 10. -/
theorem calculate_logic_first_min_witness :
    (∃ p ∈ [((110 : ℤ), (50 : ℤ)), ((110 : ℤ), (50 : ℤ))],
      distSqTo ⟨0, 0, 100, 100⟩ p < 99999 ^ 2) ∧
    ∃ l1 p l2, [((110 : ℤ), (50 : ℤ)), ((110 : ℤ), (50 : ℤ))] = l1 ++ p :: l2 ∧
      (calculate_logic (some [((110 : ℤ), (50 : ℤ)), ((110 : ℤ), (50 : ℤ))])
          ⟨0, 0, 100, 100⟩).hand_point = p ∧
      (calculate_logic (some [((110 : ℤ), (50 : ℤ)), ((110 : ℤ), (50 : ℤ))])
          ⟨0, 0, 100, 100⟩).box_point = closestBoxPoint ⟨0, 0, 100, 100⟩ p ∧
      (calculate_logic (some [((110 : ℤ), (50 : ℤ)), ((110 : ℤ), (50 : ℤ))])
          ⟨0, 0, 100, 100⟩).distSq = distSqTo ⟨0, 0, 100, 100⟩ p ∧
      (∀ q ∈ [((110 : ℤ), (50 : ℤ)), ((110 : ℤ), (50 : ℤ))],
        distSqTo ⟨0, 0, 100, 100⟩ p ≤ distSqTo ⟨0, 0, 100, 100⟩ q) ∧
      (∀ q ∈ l1, distSqTo ⟨0, 0, 100, 100⟩ p < distSqTo ⟨0, 0, 100, 100⟩ q) ∧
      (calculate_logic (some [((110 : ℤ), (50 : ℤ)), ((110 : ℤ), (50 : ℤ))])
          ⟨0, 0, 100, 100⟩).state = classifyDistSq (distSqTo ⟨0, 0, 100, 100⟩ p) :=
  ⟨by decide, calculate_logic_first_min
    [((110 : ℤ), (50 : ℤ)), ((110 : ℤ), (50 : ℤ))] ⟨0, 0, 100, 100⟩ (by decide)⟩

/-- C8 fails as stated: in hull `[(200000, 0), (200000, 0)]` against zone
`(0, 0, 10, 10)` both vertices tie for the minimum distance 199990, but that
exceeds the initial `min_dist` of 99999, so the loop never updates and the
reported hand point is the initial `(0, 0)`, which is not the first minimizing
vertex — it is not a hull vertex at all. -/
theorem calculate_logic_first_min_cex :
    (calculate_logic (some [((200000 : ℤ), 0), ((200000 : ℤ), 0)])
        ⟨0, 0, 10, 10⟩).hand_point = (0, 0) ∧
    ((0 : ℤ), (0 : ℤ)) ∉ [((200000 : ℤ), 0), ((200000 : ℤ), 0)] := by decide

/-- Clamping in x commutes with translating both the point and the rectangle. -/
theorem clampX_translate (d : Pt) (r : Rect) (px : ℤ) :
    clampX (translateRect d r) (px + d.1) = clampX r px + d.1 := by
  show max (r.rx + d.1) (min (px + d.1) (r.rx + d.1 + r.rw)) =
    max r.rx (min px (r.rx + r.rw)) + d.1
  rw [show r.rx + d.1 + r.rw = r.rx + r.rw + d.1 by ring,
    min_add_add_right, max_add_add_right]

/-- Clamping in y commutes with translating both the point and the rectangle. -/
theorem clampY_translate (d : Pt) (r : Rect) (py : ℤ) :
    clampY (translateRect d r) (py + d.2) = clampY r py + d.2 := by
  show max (r.ry + d.2) (min (py + d.2) (r.ry + d.2 + r.rh)) =
    max r.ry (min py (r.ry + r.rh)) + d.2
  rw [show r.ry + d.2 + r.rh = r.ry + r.rh + d.2 by ring,
    min_add_add_right, max_add_add_right]

/-- The squared vertex-to-box distance is invariant under joint translation. -/
theorem distSqTo_translate (d : Pt) (r : Rect) (p : Pt) :
    distSqTo (translateRect d r) (translatePt d p) = distSqTo r p := by
  show (p.1 + d.1 - clampX (translateRect d r) (p.1 + d.1)) ^ 2 +
      (p.2 + d.2 - clampY (translateRect d r) (p.2 + d.2)) ^ 2 =
    (p.1 - clampX r p.1) ^ 2 + (p.2 - clampY r p.2) ^ 2
  rw [clampX_translate, clampY_translate]
  ring

/-- The clamped box point commutes with joint translation. -/
theorem closestBoxPoint_translate (d : Pt) (r : Rect) (p : Pt) :
    closestBoxPoint (translateRect d r) (translatePt d p) =
      translatePt d (closestBoxPoint r p) := by
  show (clampX (translateRect d r) (p.1 + d.1), clampY (translateRect d r) (p.2 + d.2)) =
    (clampX r p.1 + d.1, clampY r p.2 + d.2)
  rw [clampX_translate, clampY_translate]

/-- One loop step commutes with joint translation of accumulator points,
vertex and rectangle (the running minimum is unchanged). -/
theorem scanStep_translate (d : Pt) (r : Rect) (m : ℤ) (a b p : Pt) :
    scanStep (translateRect d r) (m, translatePt d a, translatePt d b) (translatePt d p) =
      ((scanStep r (m, a, b) p).1, translatePt d (scanStep r (m, a, b) p).2.1,
        translatePt d (scanStep r (m, a, b) p).2.2) := by
  dsimp only [scanStep]
  rw [distSqTo_translate]
  by_cases h : distSqTo r p < m
  · rw [if_pos h, if_pos h, closestBoxPoint_translate]
  · rw [if_neg h, if_neg h]

/-- The whole loop commutes with joint translation of the initial points,
every vertex and the rectangle. -/
theorem scan_translate (d : Pt) (r : Rect) (l : List Pt) :
    ∀ (m : ℤ) (a b : Pt),
      (l.map (translatePt d)).foldl (scanStep (translateRect d r))
          (m, translatePt d a, translatePt d b) =
        ((l.foldl (scanStep r) (m, a, b)).1,
          translatePt d (l.foldl (scanStep r) (m, a, b)).2.1,
          translatePt d (l.foldl (scanStep r) (m, a, b)).2.2) := by
  induction l with
  | nil => intro m a b; rfl
  | cons x xs ih =>
      intro m a b
      simp only [List.map_cons, List.foldl_cons]
      rw [scanStep_translate]
      exact ih (scanStep r (m, a, b) x).1 (scanStep r (m, a, b) x).2.1
        (scanStep r (m, a, b) x).2.2

/-- When some vertex is strictly below the initial minimum, the loop's result
does not depend on the initial closest-point entries. -/
theorem scan_init_points (r : Rect) (l : List Pt) :
    ∀ (m : ℤ) (a b a' b' : Pt), (∃ p ∈ l, distSqTo r p < m) →
      l.foldl (scanStep r) (m, a, b) = l.foldl (scanStep r) (m, a', b') := by
  induction l with
  | nil =>
      intro m a b a' b' h
      rcases h with ⟨p, hp, _⟩
      cases hp
  | cons x xs ih =>
      intro m a b a' b' h
      simp only [List.foldl_cons]
      by_cases hx : distSqTo r x < m
      · have h1 : scanStep r (m, a, b) x = (distSqTo r x, x, closestBoxPoint r x) := by
          dsimp only [scanStep]; rw [if_pos hx]
        have h2 : scanStep r (m, a', b') x = (distSqTo r x, x, closestBoxPoint r x) := by
          dsimp only [scanStep]; rw [if_pos hx]
        rw [h1, h2]
      · have h1 : scanStep r (m, a, b) x = (m, a, b) := by
          dsimp only [scanStep]; rw [if_neg hx]
        have h2 : scanStep r (m, a', b') x = (m, a', b') := by
          dsimp only [scanStep]; rw [if_neg hx]
        rw [h1, h2]
        have h' : ∃ p ∈ xs, distSqTo r p < m := by
          rcases h with ⟨p, hp, hplt⟩
          rcases List.mem_cons.mp hp with hpx | hpxs
          · subst hpx; exact absurd hplt hx
          · exact ⟨p, hpxs, hplt⟩
        exact ih m a b a' b' h'

/-- C7 (amended): translating the hull and the zone by the same vector never
changes the returned state or distance (also for `None` and for all-far
hulls); the reported points are the untranslated reported points translated by
the same vector whenever the hull is present and some vertex is closer than
the 99999 cap — otherwise both runs report the fixed sentinel `(0, 0)`. -/
theorem calculate_logic_translation (hull : Option (List Pt)) (r : Rect) (d : Pt) :
    ((calculate_logic (hull.map (List.map (translatePt d))) (translateRect d r)).state =
        (calculate_logic hull r).state ∧
      (calculate_logic (hull.map (List.map (translatePt d))) (translateRect d r)).distSq =
        (calculate_logic hull r).distSq) ∧
    (∀ l, hull = some l → (∃ p ∈ l, distSqTo r p < 99999 ^ 2) →
      (calculate_logic (hull.map (List.map (translatePt d))) (translateRect d r)).hand_point =
        translatePt d ((calculate_logic hull r).hand_point) ∧
      (calculate_logic (hull.map (List.map (translatePt d))) (translateRect d r)).box_point =
        translatePt d ((calculate_logic hull r).box_point)) := by
  cases hull with
  | none =>
      refine ⟨⟨rfl, rfl⟩, ?_⟩
      intro l hl
      cases hl
  | some l =>
      by_cases hc : ∃ p ∈ l, distSqTo r p < 99999 ^ 2
      · have hinit : ∃ q ∈ l.map (translatePt d),
            distSqTo (translateRect d r) q < ((99999 ^ 2 : ℤ),
              (((0 : ℤ), (0 : ℤ)) : Pt), (((0 : ℤ), (0 : ℤ)) : Pt)).1 := by
          rcases hc with ⟨p, hp, hlt⟩
          exact ⟨translatePt d p, List.mem_map_of_mem _ hp,
            by rw [distSqTo_translate]; exact hlt⟩
        have h1 : scanHull (translateRect d r) (l.map (translatePt d)) =
            ((scanHull r l).1, translatePt d (scanHull r l).2.1,
              translatePt d (scanHull r l).2.2) := by
          show (l.map (translatePt d)).foldl (scanStep (translateRect d r))
              (99999 ^ 2, (0, 0), (0, 0)) = _
          rw [scan_init_points (translateRect d r) (l.map (translatePt d)) (99999 ^ 2)
            (0, 0) (0, 0) (translatePt d (0, 0)) (translatePt d (0, 0)) hinit]
          exact scan_translate d r l (99999 ^ 2) (0, 0) (0, 0)
        refine ⟨⟨?_, ?_⟩, ?_⟩
        · show classifyDistSq (scanHull (translateRect d r) (l.map (translatePt d))).1 =
            classifyDistSq (scanHull r l).1
          rw [h1]
        · show (scanHull (translateRect d r) (l.map (translatePt d))).1 = (scanHull r l).1
          rw [h1]
        · intro l' hl' _
          have hll : l' = l := (Option.some.injEq _ _ ▸ hl').symm
          subst hll
          constructor
          · show (scanHull (translateRect d r) (l'.map (translatePt d))).2.1 =
              translatePt d (scanHull r l').2.1
            rw [h1]
          · show (scanHull (translateRect d r) (l'.map (translatePt d))).2.2 =
              translatePt d (scanHull r l').2.2
            rw [h1]
      · push_neg at hc
        have hfar : ∀ p ∈ l, ((99999 ^ 2 : ℤ), (((0 : ℤ), (0 : ℤ)) : Pt),
            (((0 : ℤ), (0 : ℤ)) : Pt)).1 ≤ distSqTo r p := fun p hp => hc p hp
        have hfarT : ∀ q ∈ l.map (translatePt d), ((99999 ^ 2 : ℤ),
            (((0 : ℤ), (0 : ℤ)) : Pt), (((0 : ℤ), (0 : ℤ)) : Pt)).1 ≤
              distSqTo (translateRect d r) q := by
          intro q hq
          rcases List.mem_map.mp hq with ⟨p, hp, hpq⟩
          subst hpq
          rw [distSqTo_translate]
          exact hc p hp
        have hsT : scanHull (translateRect d r) (l.map (translatePt d)) =
            (99999 ^ 2, (0, 0), (0, 0)) :=
          scan_no_update (translateRect d r) (l.map (translatePt d)) _ hfarT
        have hsU : scanHull r l = (99999 ^ 2, (0, 0), (0, 0)) :=
          scan_no_update r l _ hfar
        refine ⟨⟨?_, ?_⟩, ?_⟩
        · show classifyDistSq (scanHull (translateRect d r) (l.map (translatePt d))).1 =
            classifyDistSq (scanHull r l).1
          rw [hsT, hsU]
        · show (scanHull (translateRect d r) (l.map (translatePt d))).1 = (scanHull r l).1
          rw [hsT, hsU]
        · intro l' hl' hex
          have hll : l' = l := (Option.some.injEq _ _ ▸ hl').symm
          subst hll
          rcases hex with ⟨p, hp, hlt⟩
          exact absurd hlt (not_lt.mpr (hc p hp))

/-- Witness for C7 at hull `[(50, 100)]`, zone `(100, 100, 200, 200)` and
translation vector `(7, -3)`: the vertex is within the cap, so the reported
points translate along. -/
theorem calculate_logic_translation_witness :
    (calculate_logic ((some [((50 : ℤ), (100 : ℤ))]).map (List.map (translatePt (7, -3))))
        (translateRect (7, -3) ⟨100, 100, 200, 200⟩)).hand_point =
      translatePt (7, -3)
        ((calculate_logic (some [((50 : ℤ), (100 : ℤ))]) ⟨100, 100, 200, 200⟩).hand_point) ∧
    (calculate_logic ((some [((50 : ℤ), (100 : ℤ))]).map (List.map (translatePt (7, -3))))
        (translateRect (7, -3) ⟨100, 100, 200, 200⟩)).box_point =
      translatePt (7, -3)
        ((calculate_logic (some [((50 : ℤ), (100 : ℤ))]) ⟨100, 100, 200, 200⟩).box_point) :=
  (calculate_logic_translation (some [((50 : ℤ), (100 : ℤ))]) ⟨100, 100, 200, 200⟩
    (7, -3)).2 [((50 : ℤ), (100 : ℤ))] rfl (by decide)

/-- C7 fails as stated for `hull = None`: both the translated and the
untranslated call report hand point `(0, 0)`, which is not the translate of
the untranslated reported point by `(1, 0)`. -/
theorem calculate_logic_translation_cex :
    (calculate_logic ((none : Option (List Pt)).map (List.map (translatePt (1, 0))))
        (translateRect (1, 0) ⟨0, 0, 1, 1⟩)).hand_point ≠
      translatePt (1, 0) ((calculate_logic none ⟨0, 0, 1, 1⟩).hand_point) := by decide
